import Mathlib

/-!
Shallow embedding of `src/services/memos-service.ts` (obsidian-memos-ai-sync).

The service class `MemosService(apiUrl, accessToken, syncLimit)` exposes
`fetchAllMemos` — a cursor-paginated fetch loop over the transport
`requestUrl` — and `downloadResource` — a single best-effort binary
download.  The transport is modelled as an oracle: for `fetchAllMemos`,
a function from the request index (requests are strictly sequential) to
the outcome of the `requestUrl` call; for `downloadResource`, a function
from the requested URL to the outcome.  JavaScript exceptions are
modelled with `Except`; `Date.getTime` on parseable timestamps and
`encodeURIComponent` are opaque collaborators, taken as parameters.
The `Authorization`/`Accept` headers and the constant `state=NORMAL`
query parameter never influence control flow and are not modelled.
-/

namespace MemosSync

/-- Modelled from the spec: `MemoItem` (declared in `src/models/settings.ts`,
which is not part of `src/`): an opaque record from the remote API carrying
at least a `createTime` (a timestamp string); `uid` stands for the rest of
the opaque, read-only payload. -/
structure MemoItem where
  createTime : String
  uid : Nat
deriving DecidableEq

/-- A thrown JavaScript error: either a plain `new Error(message)` or a
`TypeError` (the kind the transport throws for an unreachable host). -/
inductive JsError where
  | error (message : String)
  | typeError (message : String)
deriving DecidableEq

/-- The parsed body of a page response, as inspected by lines 68–73 of
`memos-service.ts`: either it is not an object with a `memos` array
(`!responseData || !Array.isArray(responseData.memos)`), or it is a page
`{ memos, nextPageToken? }`. -/
inductive JsonBody where
  | notMemosArray
  | page (memos : List MemoItem) (nextPageToken : Option String)
deriving DecidableEq

/-- The response shape of the `requestUrl` transport: HTTP status, raw text
body, parsed JSON body, and the optional binary payload (`arrayBuffer`,
modelled as a byte list). -/
structure RespModel where
  status : Nat
  text : String
  json : JsonBody
  arrayBuffer : Option (List Nat)
deriving DecidableEq

/-- Outcome of one `requestUrl` call: the promise either rejects (throws) or
resolves to a response. -/
inductive TransportOutcome where
  | throws (e : JsError)
  | ok (r : RespModel)
deriving DecidableEq

/-- One page request as issued by the loop: the `pageSize` query parameter,
the `pageToken` query parameter (present only when the `pageToken` variable
is truthy, line 46), and — recorded for specification purposes — the number
of accumulated memos at the moment the request was issued. -/
structure PageRequest where
  pageSize : Nat
  pageTokenParam : Option String
  accAtIssue : Nat
deriving DecidableEq

/-- JavaScript truthiness of an `Option String`: `undefined` and the empty
string are falsy (`if (pageToken)`, `!pageToken`). -/
def tokenTruthy : Option String → Bool
  | none => false
  | some s => !(s == "")

/-- Index of the first occurrence of `pat` in a character list
(JS `String.prototype.indexOf`). -/
def findOcc (pat : List Char) : List Char → Option Nat
  | [] => if pat.isEmpty then some 0 else none
  | c :: rest =>
    if pat.isPrefixOf (c :: rest) then some 0
    else (findOcc pat rest).map (· + 1)

/-- JS `String.prototype.includes` (line 32: `this.apiUrl.includes('/api/v1')`). -/
def jsIncludes (s pat : String) : Bool :=
  (findOcc pat.data s.data).isSome

/-- JS `String.prototype.replace` with a string pattern replaces only the
first occurrence (line 110: `this.apiUrl.replace('/api/v1', '')`). Lean's
`String.replace` replaces every occurrence, so it is not a faithful model. -/
def replaceFirstOcc (pat rep s : List Char) : List Char :=
  match findOcc pat s with
  | none => s
  | some i => s.take i ++ rep ++ s.drop (i + pat.length)

/-- String version of `replaceFirstOcc`. -/
def jsReplace (pat rep s : String) : String :=
  (replaceFirstOcc pat.data rep.data s.data).asString

/-- JS `String.prototype.split` with a one-character separator: always
returns at least one (possibly empty) segment. -/
def splitChar (sep : Char) : List Char → List (List Char)
  | [] => [[]]
  | c :: rest =>
    match splitChar sep rest with
    | [] => [[c]]
    | s :: ss => if c = sep then [] :: s :: ss else (c :: s) :: ss

/-- Line 109: `resource.name.split('/').pop() || resource.name` — the last
`/`-separated segment of the name, except that a falsy (empty) last segment
makes the whole name the attachment id. -/
def attachmentIdOf (name : String) : String :=
  match (splitChar '/' name.data).getLast? with
  | none => name
  | some s => if s.isEmpty then name else s.asString

/-- The catch block of `fetchAllMemos` (lines 96–102): a `TypeError` with
message `'Failed to fetch'` is re-wrapped into a network error naming the
API URL; every other error is re-thrown unchanged. -/
def rewrapError (apiUrl : String) : JsError → JsError
  | .typeError msg =>
    if msg = "Failed to fetch" then
      .error ("网络错误: 无法连接到 " ++ apiUrl ++ "。请检查 URL 是否正确且可访问。")
    else .typeError msg
  | .error msg => .error msg

/-- The do/while pagination loop of `fetchAllMemos` (lines 36–90).  `serv`
gives the outcome of the `requestUrl` call for each successive request
index; the returned `PageRequest` list is the trace of requests issued from
this point on.  `fuel` bounds the recursion purely to make the function
structural; the top level supplies `syncLimit + 1`, which `fetchLoop_isSome`
shows can never run out (`none` = fuel exhausted, never reached). -/
def fetchLoop (serv : Nat → TransportOutcome) (syncLimit pageSize : Nat)
    (acc : List MemoItem) (pageToken : Option String) (reqIdx : Nat) :
    Nat → Option (List PageRequest × Except JsError (List MemoItem))
  | 0 => none
  | fuel + 1 =>
    let req : PageRequest :=
      { pageSize := pageSize
        pageTokenParam := if tokenTruthy pageToken then pageToken else none
        accAtIssue := acc.length }
    match serv reqIdx with
    | .throws e => some ([req], .error e)
    | .ok resp =>
      if resp.status ≠ 200 then
        some ([req], .error (.error
          ("HTTP " ++ toString resp.status ++ ": 请求失败\n响应内容: " ++ resp.text)))
      else
        match resp.json with
        | .notMemosArray =>
          some ([req], .error (.error "响应格式无效: 返回数据不包含 memos 数组"))
        | .page memos nextTok =>
          if memos.length = 0 then
            some ([req], .ok acc)
          else
            let remainingCount := syncLimit - acc.length
            let neededCount := min memos.length remainingCount
            let acc2 := acc ++ memos.take neededCount
            if syncLimit ≤ acc2.length ∨ tokenTruthy nextTok = false then
              some ([req], .ok acc2)
            else
              (fetchLoop serv syncLimit pageSize acc2 nextTok (reqIdx + 1) fuel).map
                (fun p => (req :: p.1, p.2))

/-- The final sort (lines 93–95):
`allMemos.sort((a, b) => new Date(b.createTime).getTime() - new Date(a.createTime).getTime())`.
`Array.prototype.sort` is specified to be a stable sort consistent with the
comparator, and for a comparator that is a total preorder any stable sorting
algorithm produces the same list, so we model it with stable insertion sort
under the comparator's order: `a` precedes `b` iff `time b ≤ time a`.
`gt` models `new Date(·).getTime()` on parseable timestamps. -/
def sortMemos (gt : String → Int) (l : List MemoItem) : List MemoItem :=
  @List.insertionSort MemoItem (fun a b => gt b.createTime ≤ gt a.createTime)
    (fun a b => Int.decLe (gt b.createTime) (gt a.createTime)) l

/-- `fetchAllMemos` (lines 21–103): validate the API URL, run the pagination
loop, sort the accumulated memos by `createTime` descending, and re-wrap
errors in the catch block.  The result pairs the trace of issued page
requests with the returned list or the thrown error; `none` (fuel
exhaustion) never occurs (`fetchAllMemos_isSome`). -/
def fetchAllMemos (gt : String → Int) (serv : Nat → TransportOutcome)
    (apiUrl : String) (syncLimit : Nat) :
    Option (List PageRequest × Except JsError (List MemoItem)) :=
  let body :=
    if jsIncludes apiUrl "/api/v1" = false then
      some (([] : List PageRequest),
        Except.error (JsError.error "API URL 格式不正确，请确保包含 /api/v1"))
    else
      (fetchLoop serv syncLimit (min 100 syncLimit) [] none 0 (syncLimit + 1)).map
        (fun p => (p.1, p.2.map (sortMemos gt)))
  body.map (fun p => (p.1, p.2.mapError (rewrapError apiUrl)))

/-- The resource argument of `downloadResource`:
`{ name: string; filename: string; type?: string }`. -/
structure ResourceRef where
  name : String
  filename : String
  rtype : Option String := none
deriving DecidableEq

/-- Lines 109–110: the URL requested by `downloadResource`.  `enc` models
`encodeURIComponent`. -/
def downloadUrl (apiUrl : String) (enc : String → String) (res : ResourceRef) : String :=
  jsReplace "/api/v1" "" apiUrl ++ "/file/attachments/" ++ attachmentIdOf res.name
    ++ "/" ++ enc res.filename

/-- The download URL as worded by the specification and by claim C9: the
base URL with its `/api/v1` suffix stripped, then
`/file/attachments/{attachmentId}/{encoded filename}` where `attachmentId`
is the final `/`-delimited segment of the resource name.  This is the
spec-side definition, to be compared with `downloadUrl`, the code-side one. -/
def specDownloadUrl (apiUrl : String) (enc : String → String) (res : ResourceRef) : String :=
  (apiUrl.data.take (apiUrl.data.length - ("/api/v1" : String).data.length)).asString
    ++ "/file/attachments/"
    ++ ((splitChar '/' res.name.data).getLast?.getD []).asString
    ++ "/" ++ enc res.filename

/-- `downloadResource` (lines 105–142): request the derived URL; on a thrown
transport error, a non-200 status, or a missing `arrayBuffer` payload return
`null` (the try/catch swallows every throw); on a 200 response carrying an
`arrayBuffer` return it.  `serv` gives the transport outcome for the
requested URL. -/
def downloadResource (apiUrl : String) (enc : String → String)
    (serv : String → TransportOutcome) (res : ResourceRef) : Option (List Nat) :=
  match serv (downloadUrl apiUrl enc res) with
  | .throws _ => none
  | .ok resp =>
    if resp.status ≠ 200 then none
    else
      match resp.arrayBuffer with
      | some buf => some buf
      | none => none

/-- A transport outcome that is a successfully parsed 200 page response
(the hypothesis of the termination claim). -/
def WellFormedPage (o : TransportOutcome) : Prop :=
  ∃ (text : String) (memos : List MemoItem) (nextTok : Option String)
    (ab : Option (List Nat)), o = .ok ⟨200, text, .page memos nextTok, ab⟩

instance {ε α : Type} [DecidableEq ε] [DecidableEq α] : DecidableEq (Except ε α) := fun a b =>
  match a, b with
  | .ok x, .ok y =>
    decidable_of_iff (x = y) (by constructor <;> intro h <;> [exact congrArg _ h; injection h])
  | .error x, .error y =>
    decidable_of_iff (x = y) (by constructor <;> intro h <;> [exact congrArg _ h; injection h])
  | .ok _, .error _ => isFalse (by intro h; injection h)
  | .error _, .ok _ => isFalse (by intro h; injection h)

/-! ## Helper lemmas about the sort and the loop -/

theorem sortMemos_length (gt : String → Int) (l : List MemoItem) :
    (sortMemos gt l).length = l.length :=
  List.length_insertionSort _ l

theorem sortMemos_sorted (gt : String → Int) (l : List MemoItem) :
    (sortMemos gt l).Pairwise (fun a b => gt b.createTime ≤ gt a.createTime) := by
  haveI : IsTotal MemoItem (fun a b => gt b.createTime ≤ gt a.createTime) :=
    ⟨fun a b => le_total (gt b.createTime) (gt a.createTime)⟩
  haveI : IsTrans MemoItem (fun a b => gt b.createTime ≤ gt a.createTime) :=
    ⟨fun _ _ _ hab hbc => le_trans hbc hab⟩
  exact List.sorted_insertionSort _ l

theorem filter_key_orderedInsert (gt : String → Int) (k : Int) (a : MemoItem) :
    ∀ l : List MemoItem,
      (@List.orderedInsert MemoItem (fun x y => gt y.createTime ≤ gt x.createTime)
          (fun x y => Int.decLe (gt y.createTime) (gt x.createTime)) a l).filter
          (fun m => gt m.createTime == k)
        = if gt a.createTime == k then a :: l.filter (fun m => gt m.createTime == k)
          else l.filter (fun m => gt m.createTime == k)
  | [] => by
    simp only [List.orderedInsert]
    by_cases hpa : (gt a.createTime == k) = true <;> simp [List.filter_cons, hpa]
  | b :: l => by
    rw [List.orderedInsert]
    split
    · by_cases hpa : (gt a.createTime == k) = true <;> simp [List.filter_cons, hpa]
    · rename_i hr
      by_cases hpa : (gt a.createTime == k) = true
      · have hab : gt a.createTime < gt b.createTime := not_le.mp hr
        have hk : gt a.createTime = k := beq_iff_eq.mp hpa
        have hb : (gt b.createTime == k) = false := beq_eq_false_iff_ne.mpr (by omega)
        simp [List.filter_cons, hpa, hb, filter_key_orderedInsert gt k a l]
      · have hpa' : (gt a.createTime == k) = false := Bool.not_eq_true _ ▸ Bool.of_not_eq_true hpa
        simp [List.filter_cons, hpa', filter_key_orderedInsert gt k a l]

theorem sortMemos_filter (gt : String → Int) (k : Int) :
    ∀ l : List MemoItem,
      (sortMemos gt l).filter (fun m => gt m.createTime == k)
        = l.filter (fun m => gt m.createTime == k)
  | [] => rfl
  | b :: l => by
    have ih := sortMemos_filter gt k l
    rw [sortMemos] at ih ⊢
    rw [List.insertionSort]
    rw [filter_key_orderedInsert gt k b]
    rw [ih]
    by_cases hb : (gt b.createTime == k) = true <;> simp [List.filter_cons, hb]

theorem fetchLoop_isSome : ∀ (fuel : Nat) (serv : Nat → TransportOutcome) (sl ps : Nat)
    (acc : List MemoItem) (tok : Option String) (idx : Nat),
    1 ≤ fuel → sl ≤ acc.length + fuel →
    (fetchLoop serv sl ps acc tok idx fuel).isSome = true := by
  intro fuel
  induction fuel with
  | zero => intro _ _ _ _ _ _ h1 _; omega
  | succ f ih =>
    intro serv sl ps acc tok idx _ h2
    rw [fetchLoop]
    cases hs : serv idx <;> dsimp only
    case throws e => rfl
    case ok resp =>
      split
      · rfl
      · split
        · rfl
        · rename_i memos nextTok heq
          split
          · rfl
          · split
            · rfl
            · rename_i hm hcond
              have hlen : (acc ++ List.take (min memos.length (sl - acc.length)) memos).length
                  = acc.length + min (min memos.length (sl - acc.length)) memos.length := by
                simp [List.length_append, List.length_take]
              have hnotle : ¬ sl ≤
                  (acc ++ List.take (min memos.length (sl - acc.length)) memos).length := by
                intro hle; exact hcond (Or.inl hle)
              have hne : memos.length ≠ 0 := hm
              have h1' : 1 ≤ f := by rw [hlen] at hnotle; omega
              have h2' : sl ≤
                  (acc ++ List.take (min memos.length (sl - acc.length)) memos).length + f := by
                rw [hlen] at hnotle ⊢; omega
              have := ih serv sl ps (acc ++ List.take (min memos.length (sl - acc.length)) memos)
                nextTok (idx + 1) h1' h2'
              obtain ⟨p, hp⟩ := Option.isSome_iff_exists.mp this
              simp [hp]

theorem fetchLoop_trace_le : ∀ (fuel : Nat) (serv : Nat → TransportOutcome) (sl ps : Nat)
    (acc : List MemoItem) (tok : Option String) (idx : Nat) (tr : List PageRequest)
    (res : Except JsError (List MemoItem)),
    fetchLoop serv sl ps acc tok idx fuel = some (tr, res) →
    acc.length < sl → tr.length ≤ sl - acc.length := by
  intro fuel
  induction fuel with
  | zero => intro _ _ _ _ _ _ _ _ h _; simp [fetchLoop] at h
  | succ f ih =>
    intro serv sl ps acc tok idx tr res h hacc
    rw [fetchLoop] at h
    cases hs : serv idx <;> rw [hs] at h <;> dsimp only [] at h
    case throws e =>
      simp only [Option.some.injEq, Prod.mk.injEq] at h
      rcases h with ⟨h1, -⟩; subst h1; simp; omega
    case ok resp =>
      split at h
      · simp only [Option.some.injEq, Prod.mk.injEq] at h
        rcases h with ⟨h1, -⟩; subst h1; simp; omega
      · split at h
        · simp only [Option.some.injEq, Prod.mk.injEq] at h
          rcases h with ⟨h1, -⟩; subst h1; simp; omega
        · rename_i memos nextTok heq
          split at h
          · simp only [Option.some.injEq, Prod.mk.injEq] at h
            rcases h with ⟨h1, -⟩; subst h1; simp; omega
          · split at h
            · simp only [Option.some.injEq, Prod.mk.injEq] at h
              rcases h with ⟨h1, -⟩; subst h1; simp; omega
            · rename_i hm hcond
              simp only [Option.map_eq_some'] at h
              rcases h with ⟨⟨tr', res'⟩, hrec, hmk⟩
              simp only [Prod.mk.injEq] at hmk
              rcases hmk with ⟨h1, -⟩
              subst h1
              have hlen : (acc ++ List.take (min memos.length (sl - acc.length)) memos).length
                  = acc.length + min (min memos.length (sl - acc.length)) memos.length := by
                simp [List.length_append, List.length_take]
              have hnotle : ¬ sl ≤
                  (acc ++ List.take (min memos.length (sl - acc.length)) memos).length := by
                intro hle; exact hcond (Or.inl hle)
              have hne : memos.length ≠ 0 := hm
              have hlt : (acc ++ List.take (min memos.length (sl - acc.length)) memos).length
                  < sl := by omega
              have := ih serv sl ps _ nextTok (idx + 1) tr' res' hrec hlt
              rw [hlen] at hlt this
              simp only [List.length_cons]
              omega

theorem fetchLoop_ok_length : ∀ (fuel : Nat) (serv : Nat → TransportOutcome) (sl ps : Nat)
    (acc : List MemoItem) (tok : Option String) (idx : Nat) (tr : List PageRequest)
    (items : List MemoItem),
    fetchLoop serv sl ps acc tok idx fuel = some (tr, Except.ok items) →
    acc.length ≤ sl → items.length ≤ sl := by
  intro fuel
  induction fuel with
  | zero => intro _ _ _ _ _ _ _ _ h _; simp [fetchLoop] at h
  | succ f ih =>
    intro serv sl ps acc tok idx tr items h hacc
    rw [fetchLoop] at h
    cases hs : serv idx <;> rw [hs] at h <;> dsimp only [] at h
    case throws e => simp at h
    case ok resp =>
      split at h
      · simp at h
      · split at h
        · simp at h
        · rename_i memos nextTok heq
          split at h
          · simp only [Option.some.injEq, Prod.mk.injEq, Except.ok.injEq] at h
            rcases h with ⟨-, h2⟩; subst h2; exact hacc
          · split at h
            · simp only [Option.some.injEq, Prod.mk.injEq, Except.ok.injEq] at h
              rcases h with ⟨-, h2⟩
              subst h2
              simp only [List.length_append, List.length_take]
              omega
            · rename_i hm hcond
              simp only [Option.map_eq_some'] at h
              rcases h with ⟨⟨tr', res'⟩, hrec, hmk⟩
              simp only [Prod.mk.injEq] at hmk
              rcases hmk with ⟨-, h2⟩
              subst h2
              have hnotle : ¬ sl ≤
                  (acc ++ List.take (min memos.length (sl - acc.length)) memos).length := by
                intro hle; exact hcond (Or.inl hle)
              exact ih serv sl ps _ nextTok (idx + 1) tr' items hrec (by omega)

theorem fetchLoop_pageSize : ∀ (fuel : Nat) (serv : Nat → TransportOutcome) (sl ps : Nat)
    (acc : List MemoItem) (tok : Option String) (idx : Nat) (tr : List PageRequest)
    (res : Except JsError (List MemoItem)),
    fetchLoop serv sl ps acc tok idx fuel = some (tr, res) →
    ∀ req ∈ tr, req.pageSize = ps := by
  intro fuel
  induction fuel with
  | zero => intro _ _ _ _ _ _ _ _ h; simp [fetchLoop] at h
  | succ f ih =>
    intro serv sl ps acc tok idx tr res h req hreq
    rw [fetchLoop] at h
    cases hs : serv idx <;> rw [hs] at h <;> dsimp only [] at h
    case throws e =>
      simp only [Option.some.injEq, Prod.mk.injEq] at h
      rcases h with ⟨h1, -⟩
      subst h1
      simp only [List.mem_singleton] at hreq
      subst hreq; rfl
    case ok resp =>
      split at h
      · simp only [Option.some.injEq, Prod.mk.injEq] at h
        rcases h with ⟨h1, -⟩; subst h1
        simp only [List.mem_singleton] at hreq; subst hreq; rfl
      · split at h
        · simp only [Option.some.injEq, Prod.mk.injEq] at h
          rcases h with ⟨h1, -⟩; subst h1
          simp only [List.mem_singleton] at hreq; subst hreq; rfl
        · rename_i memos nextTok heq
          split at h
          · simp only [Option.some.injEq, Prod.mk.injEq] at h
            rcases h with ⟨h1, -⟩; subst h1
            simp only [List.mem_singleton] at hreq; subst hreq; rfl
          · split at h
            · simp only [Option.some.injEq, Prod.mk.injEq] at h
              rcases h with ⟨h1, -⟩; subst h1
              simp only [List.mem_singleton] at hreq; subst hreq; rfl
            · simp only [Option.map_eq_some'] at h
              rcases h with ⟨⟨tr', res'⟩, hrec, hmk⟩
              simp only [Prod.mk.injEq] at hmk
              rcases hmk with ⟨h1, -⟩
              subst h1
              rcases List.mem_cons.mp hreq with hq | hq
              · subst hq; rfl
              · exact ih serv sl ps _ _ (idx + 1) tr' res' hrec req hq

theorem fetchAllMemos_isSome (gt : String → Int) (serv : Nat → TransportOutcome)
    (apiUrl : String) (sl : Nat) :
    (fetchAllMemos gt serv apiUrl sl).isSome = true := by
  rw [fetchAllMemos]
  by_cases hcfg : jsIncludes apiUrl "/api/v1" = false
  · simp [hcfg]
  · have h := fetchLoop_isSome (sl + 1) serv sl (min 100 sl) [] none 0 (by omega) (by simp)
    obtain ⟨p, hp⟩ := Option.isSome_iff_exists.mp h
    simp [hcfg, hp]

/-! ## The claims -/

/-- C1: for every syncLimit > 0 and every sequence of server page responses,
`fetchAllMemos` returns a list of at most syncLimit items; each page is
truncated to the remaining budget (`slice(0, neededCount)`) before being
appended, so the accumulator never exceeds the limit. -/
theorem claim_fetchAllMemos_at_most_syncLimit (gt : String → Int)
    (serv : Nat → TransportOutcome) (apiUrl : String) (sl : Nat)
    (tr : List PageRequest) (items : List MemoItem)
    (hsl : 0 < sl)
    (h : fetchAllMemos gt serv apiUrl sl = some (tr, Except.ok items)) :
    items.length ≤ sl := by
  rw [fetchAllMemos] at h
  by_cases hcfg : jsIncludes apiUrl "/api/v1" = false
  · simp [hcfg, Except.mapError, rewrapError] at h
  · rw [if_neg hcfg] at h
    simp only [Option.map_map, Option.map_eq_some'] at h
    obtain ⟨⟨tr0, res0⟩, hloop, heq⟩ := h
    cases res0 with
    | error e => simp [Function.comp, Except.map, Except.mapError] at heq
    | ok items0 =>
      simp only [Function.comp, Except.map, Except.mapError, Prod.mk.injEq,
        Except.ok.injEq] at heq
      obtain ⟨-, hitems⟩ := heq
      have hlen := fetchLoop_ok_length (sl + 1) serv sl (min 100 sl) [] none 0 tr0 items0
        hloop (by simp)
      calc items.length = items0.length := by rw [← hitems, sortMemos_length]
        _ ≤ sl := hlen

theorem claim_fetchAllMemos_at_most_syncLimit_witness :
    ([⟨"a", 0⟩, ⟨"a", 1⟩] : List MemoItem).length ≤ 2 :=
  claim_fetchAllMemos_at_most_syncLimit (fun _ => 0)
    (fun _ => .ok ⟨200, "", .page [⟨"a", 0⟩, ⟨"a", 1⟩, ⟨"a", 2⟩] (some "t"), none⟩)
    "https://h/api/v1" 2 [⟨2, none, 0⟩] [⟨"a", 0⟩, ⟨"a", 1⟩] (by decide) (by decide)

/-- C2: from any loop state, if the current page request gets a successfully
parsed 200 response whose `memos` array is empty, the loop issues exactly
that one request and returns the accumulator — even when the response
carried a `nextPageToken` (which is universally quantified here, covering
both a present and an absent cursor). -/
theorem claim_empty_page_stops_pagination (serv : Nat → TransportOutcome) (sl ps : Nat)
    (acc : List MemoItem) (tok : Option String) (idx f : Nat) (resp : RespModel)
    (nextTok : Option String)
    (hresp : serv idx = .ok resp) (hst : resp.status = 200)
    (hjson : resp.json = .page [] nextTok) :
    fetchLoop serv sl ps acc tok idx (f + 1) =
      some ([⟨ps, if tokenTruthy tok then tok else none, acc.length⟩], Except.ok acc) := by
  simp [fetchLoop, hresp, hst, hjson]

theorem claim_empty_page_stops_pagination_witness :
    fetchLoop (fun _ => .ok ⟨200, "", .page [] (some "t"), none⟩) 10 10 [] none 0 5 =
      some ([⟨10, none, 0⟩], Except.ok []) :=
  claim_empty_page_stops_pagination (fun _ => .ok ⟨200, "", .page [] (some "t"), none⟩)
    10 10 [] none 0 4 ⟨200, "", .page [] (some "t"), none⟩ (some "t") rfl rfl rfl

/-- C3: from any loop state, after a successfully parsed 200 page with a
nonempty `memos` array, (a) if the response carries no (truthy)
`nextPageToken` the loop ends with exactly that one request regardless of
the remaining budget, and (b) if the accumulated count reaches the
syncLimit the loop likewise ends with exactly that one request. -/
theorem claim_no_cursor_or_limit_stops_pagination (serv : Nat → TransportOutcome)
    (sl ps : Nat) (acc memos : List MemoItem) (tok nextTok : Option String)
    (idx f : Nat) (resp : RespModel)
    (hresp : serv idx = .ok resp) (hst : resp.status = 200)
    (hjson : resp.json = .page memos nextTok) (hne : memos ≠ []) :
    (tokenTruthy nextTok = false →
      fetchLoop serv sl ps acc tok idx (f + 1) =
        some ([⟨ps, if tokenTruthy tok then tok else none, acc.length⟩],
          Except.ok (acc ++ memos.take (min memos.length (sl - acc.length)))))
    ∧ (sl ≤ (acc ++ memos.take (min memos.length (sl - acc.length))).length →
      fetchLoop serv sl ps acc tok idx (f + 1) =
        some ([⟨ps, if tokenTruthy tok then tok else none, acc.length⟩],
          Except.ok (acc ++ memos.take (min memos.length (sl - acc.length))))) := by
  have hlen : ¬ memos.length = 0 := by simpa using hne
  constructor
  · intro htok
    simp [fetchLoop, hresp, hst, hjson, hlen, htok]
  · intro hfull
    simp only [List.length_append, List.length_take] at hfull
    have hfull2 : sl ≤ acc.length + min memos.length (sl - acc.length) := by omega
    simp [fetchLoop, hresp, hst, hjson, hlen, hfull2]

theorem claim_no_cursor_or_limit_stops_pagination_witness :
    fetchLoop (fun _ => .ok ⟨200, "", .page [⟨"t1", 1⟩] none, none⟩) 10 10 [] none 0 5 =
      some ([⟨10, none, 0⟩], Except.ok [⟨"t1", 1⟩]) :=
  (claim_no_cursor_or_limit_stops_pagination
    (fun _ => .ok ⟨200, "", .page [⟨"t1", 1⟩] none, none⟩)
    10 10 [] [⟨"t1", 1⟩] none none 0 4 ⟨200, "", .page [⟨"t1", 1⟩] none, none⟩
    rfl rfl rfl (by decide)).1 rfl

/-- C4: a successful `fetchAllMemos` returns the accumulated fetch sequence
sorted by parsed `createTime` descending (`Pairwise`: any earlier element
has a time at least that of any later one), and the sort is stable: for
every time value `k`, the items with that time appear in the same order as
in the accumulated (fetch-order) sequence `pre`. -/
theorem claim_result_sorted_desc_stable (gt : String → Int)
    (serv : Nat → TransportOutcome) (apiUrl : String) (sl : Nat)
    (tr : List PageRequest) (pre : List MemoItem)
    (hcfg : jsIncludes apiUrl "/api/v1" = true)
    (hrun : fetchLoop serv sl (min 100 sl) [] none 0 (sl + 1) = some (tr, Except.ok pre)) :
    fetchAllMemos gt serv apiUrl sl = some (tr, Except.ok (sortMemos gt pre))
    ∧ (sortMemos gt pre).Pairwise (fun a b => gt b.createTime ≤ gt a.createTime)
    ∧ ∀ k : Int, (sortMemos gt pre).filter (fun m => gt m.createTime == k)
        = pre.filter (fun m => gt m.createTime == k) := by
  refine ⟨?_, sortMemos_sorted gt pre, fun k => sortMemos_filter gt k pre⟩
  rw [fetchAllMemos, if_neg (by simp [hcfg])]
  simp [hrun, Except.map, Except.mapError]

theorem claim_result_sorted_desc_stable_witness :
    fetchAllMemos (fun s => (s.length : Int))
        (fun _ => .ok ⟨200, "", .page [⟨"a", 1⟩, ⟨"bb", 2⟩] none, none⟩)
        "https://h/api/v1" 5 =
      some ([⟨5, none, 0⟩],
        Except.ok (sortMemos (fun s => (s.length : Int)) [⟨"a", 1⟩, ⟨"bb", 2⟩]))
    ∧ (sortMemos (fun s => (s.length : Int)) [⟨"a", 1⟩, ⟨"bb", 2⟩]).Pairwise
        (fun a b => (b.createTime.length : Int) ≤ (a.createTime.length : Int))
    ∧ ∀ k : Int, (sortMemos (fun s => (s.length : Int)) [⟨"a", 1⟩, ⟨"bb", 2⟩]).filter
        (fun m => (m.createTime.length : Int) == k)
        = ([⟨"a", 1⟩, ⟨"bb", 2⟩] : List MemoItem).filter
            (fun m => (m.createTime.length : Int) == k) :=
  claim_result_sorted_desc_stable (fun s => (s.length : Int))
    (fun _ => .ok ⟨200, "", .page [⟨"a", 1⟩, ⟨"bb", 2⟩] none, none⟩)
    "https://h/api/v1" 5 [⟨5, none, 0⟩] [⟨"a", 1⟩, ⟨"bb", 2⟩] (by decide) (by decide)

/-- C5, counterexample: the claim says the requested page size never exceeds
the remaining budget `syncLimit - accumulatedCount` at the time the request
is issued.  With syncLimit 150 and a first page of 60 items carrying a
cursor, the second request still carries `pageSize = min 100 150 = 100`,
which exceeds the remaining budget `150 - 60 = 90`. -/
theorem claim_pageSize_within_remaining_budget_cex :
    fetchAllMemos (fun _ => 0)
      (fun i => if i = 0 then
          .ok ⟨200, "", .page ((List.range 60).map (fun j => ⟨"2024", j⟩)) (some "t"), none⟩
        else .ok ⟨200, "", .page [] none, none⟩)
      "https://h/api/v1" 150 =
      some ([⟨100, none, 0⟩, ⟨100, some "t", 60⟩],
        Except.ok ((List.range 60).map (fun j => ⟨"2024", j⟩)))
    ∧ ¬ (∀ req ∈ [(⟨100, none, 0⟩ : PageRequest), ⟨100, some "t", 60⟩],
        req.pageSize ≤ 150 - req.accAtIssue) := by
  constructor
  · decide
  · decide

/-- C5, amended: every page request issued by `fetchAllMemos` carries
`pageSize = min 100 syncLimit` (the constant computed once, line 29), which
never exceeds 100 and never exceeds syncLimit; it can however exceed the
remaining budget `syncLimit - accumulatedCount` on requests after the
first (see the counterexample). -/
theorem claim_pageSize_min_of_100_and_limit (gt : String → Int)
    (serv : Nat → TransportOutcome) (apiUrl : String) (sl : Nat)
    (tr : List PageRequest) (res : Except JsError (List MemoItem))
    (h : fetchAllMemos gt serv apiUrl sl = some (tr, res)) :
    ∀ req ∈ tr, req.pageSize = min 100 sl ∧ req.pageSize ≤ 100 ∧ req.pageSize ≤ sl := by
  rw [fetchAllMemos] at h
  by_cases hcfg : jsIncludes apiUrl "/api/v1" = false
  · rw [if_pos hcfg] at h
    simp only [Option.map_some', Option.some.injEq, Prod.mk.injEq] at h
    obtain ⟨htr, -⟩ := h
    subst htr
    intro req hreq
    exact absurd hreq (List.not_mem_nil req)
  · rw [if_neg hcfg] at h
    simp only [Option.map_map, Option.map_eq_some'] at h
    obtain ⟨⟨tr0, res0⟩, hloop, heq⟩ := h
    have htr : tr0 = tr := congrArg Prod.fst heq
    subst htr
    intro req hreq
    have hps := fetchLoop_pageSize (sl + 1) serv sl (min 100 sl) [] none 0 tr0 res0
      hloop req hreq
    exact ⟨hps, hps ▸ Nat.min_le_left _ _, hps ▸ Nat.min_le_right _ _⟩

theorem claim_pageSize_min_of_100_and_limit_witness :
    (⟨5, none, 0⟩ : PageRequest).pageSize = min 100 5
    ∧ (⟨5, none, 0⟩ : PageRequest).pageSize ≤ 100
    ∧ (⟨5, none, 0⟩ : PageRequest).pageSize ≤ 5 :=
  claim_pageSize_min_of_100_and_limit (fun _ => 0)
    (fun _ => .ok ⟨200, "", .page [] none, none⟩) "https://h/api/v1" 5
    [⟨5, none, 0⟩] (Except.ok []) (by decide) ⟨5, none, 0⟩ (by decide)

/-- C6: when the configured base API URL does not contain `/api/v1`,
`fetchAllMemos` fails with the configuration error and the request trace is
empty — no transport call is made before the failure. -/
theorem claim_config_error_before_any_request (gt : String → Int)
    (serv : Nat → TransportOutcome) (apiUrl : String) (sl : Nat)
    (hcfg : jsIncludes apiUrl "/api/v1" = false) :
    fetchAllMemos gt serv apiUrl sl =
      some ([], Except.error (JsError.error "API URL 格式不正确，请确保包含 /api/v1")) := by
  simp [fetchAllMemos, hcfg, rewrapError, Except.mapError]

theorem claim_config_error_before_any_request_witness :
    fetchAllMemos (fun _ => 0) (fun _ => .ok ⟨200, "", .page [] none, none⟩) "https://h" 10 =
      some ([], Except.error (JsError.error "API URL 格式不正确，请确保包含 /api/v1")) :=
  claim_config_error_before_any_request (fun _ => 0)
    (fun _ => .ok ⟨200, "", .page [] none, none⟩) "https://h" 10 (by decide)

/-- C7: from any loop state, a response with a non-200 status makes the loop
end at once with the transport error carrying the status code and the
response body verbatim; the trace from that point is exactly the one failing
request (no retry), the result is an error (no partial list), and the catch
block re-throws this error unchanged (`rewrapError` only re-wraps the
`Failed to fetch` `TypeError`). -/
theorem claim_http_error_fails_without_retry (serv : Nat → TransportOutcome) (sl ps : Nat)
    (acc : List MemoItem) (tok : Option String) (idx f : Nat) (resp : RespModel)
    (apiUrl : String)
    (hresp : serv idx = .ok resp) (hst : resp.status ≠ 200) :
    fetchLoop serv sl ps acc tok idx (f + 1) =
      some ([⟨ps, if tokenTruthy tok then tok else none, acc.length⟩],
        Except.error (JsError.error
          ("HTTP " ++ toString resp.status ++ ": 请求失败\n响应内容: " ++ resp.text)))
    ∧ rewrapError apiUrl
        (JsError.error ("HTTP " ++ toString resp.status ++ ": 请求失败\n响应内容: " ++ resp.text))
      = JsError.error ("HTTP " ++ toString resp.status ++ ": 请求失败\n响应内容: " ++ resp.text) := by
  constructor
  · simp [fetchLoop, hresp, hst]
  · rfl

theorem claim_http_error_fails_without_retry_witness :
    fetchLoop (fun _ => .ok ⟨404, "nf", .notMemosArray, none⟩) 10 10 [] none 0 5 =
      some ([⟨10, none, 0⟩],
        Except.error (JsError.error
          ("HTTP " ++ toString (404 : Nat) ++ ": 请求失败\n响应内容: " ++ "nf")))
    ∧ rewrapError "https://h/api/v1"
        (JsError.error ("HTTP " ++ toString (404 : Nat) ++ ": 请求失败\n响应内容: " ++ "nf"))
      = JsError.error ("HTTP " ++ toString (404 : Nat) ++ ": 请求失败\n响应内容: " ++ "nf") :=
  claim_http_error_fails_without_retry (fun _ => .ok ⟨404, "nf", .notMemosArray, none⟩)
    10 10 [] none 0 4 ⟨404, "nf", .notMemosArray, none⟩ "https://h/api/v1" rfl (by decide)

/-- C8: `downloadResource` never throws and returns `none` on every failure:
a thrown transport error, a non-200 status, and a 200 response missing the
`arrayBuffer` payload all yield `none`; only a 200 response carrying an
`arrayBuffer` yields it (raw, unmodified). -/
theorem claim_download_never_throws (apiUrl : String) (enc : String → String)
    (serv : String → TransportOutcome) (res : ResourceRef) :
    (∀ e, serv (downloadUrl apiUrl enc res) = .throws e →
      downloadResource apiUrl enc serv res = none)
    ∧ (∀ r, serv (downloadUrl apiUrl enc res) = .ok r → r.status ≠ 200 →
      downloadResource apiUrl enc serv res = none)
    ∧ (∀ r, serv (downloadUrl apiUrl enc res) = .ok r → r.arrayBuffer = none →
      downloadResource apiUrl enc serv res = none)
    ∧ (∀ r buf, serv (downloadUrl apiUrl enc res) = .ok r → r.status = 200 →
      r.arrayBuffer = some buf →
      downloadResource apiUrl enc serv res = some buf) := by
  refine ⟨?_, ?_, ?_, ?_⟩
  · intro e he; simp [downloadResource, he]
  · intro r hr hst; simp [downloadResource, hr, hst]
  · intro r hr hab
    rw [downloadResource, hr]
    dsimp only
    split
    · rfl
    · rw [hab]
  · intro r buf hr hst hab
    rw [downloadResource, hr]
    dsimp only
    rw [if_neg (by simp [hst]), hab]

theorem claim_download_never_throws_witness :
    downloadResource "https://h/api/v1" (fun s => s)
        (fun _ => .ok ⟨404, "not found", .notMemosArray, none⟩)
        ⟨"attachments/42", "photo.png", none⟩ = none :=
  (claim_download_never_throws "https://h/api/v1" (fun s => s)
    (fun _ => .ok ⟨404, "not found", .notMemosArray, none⟩)
    ⟨"attachments/42", "photo.png", none⟩).2.1
    ⟨404, "not found", .notMemosArray, none⟩ rfl (by decide)

/-- C9, counterexample: the claim says the attachment id is always the final
`/`-delimited segment of the resource name.  For a name ending in `/` the
final segment is empty and the code falls back to the whole name
(`split.pop() || resource.name`), so the requested URL differs from the URL
the claim describes (`specDownloadUrl`). -/
theorem claim_download_url_cex :
    downloadUrl "https://h/api/v1" (fun s => s) ⟨"attachments/", "f.png", none⟩
      ≠ specDownloadUrl "https://h/api/v1" (fun s => s) ⟨"attachments/", "f.png", none⟩ := by
  decide

/-- C9, amended: when `/api/v1` occurs in the base URL only as its suffix
(first occurrence = the suffix, as the configuration contract intends) and
the final `/`-delimited segment of the resource name is nonempty, the
requested URL is exactly the claimed one — the base URL with the `/api/v1`
suffix stripped, then `/file/attachments/{finalSegment}/{encoded filename}`
— and in particular the name `attachments/sub/77` yields attachment id
`77`.  (When the final segment is empty the code falls back to the whole
name, see the counterexample.) -/
theorem claim_download_url_shape (p : String) (enc : String → String) (res : ResourceRef)
    (seg : List Char) (apiUrl : String)
    (happ : apiUrl = p ++ "/api/v1")
    (hocc : findOcc ("/api/v1" : String).data apiUrl.data = some p.data.length)
    (hlast : (splitChar '/' res.name.data).getLast? = some seg)
    (hne : seg ≠ []) :
    downloadUrl apiUrl enc res = specDownloadUrl apiUrl enc res
    ∧ downloadUrl apiUrl enc res
        = p ++ "/file/attachments/" ++ seg.asString ++ "/" ++ enc res.filename
    ∧ attachmentIdOf "attachments/sub/77" = "77" := by
  subst happ
  have hdata : (p ++ "/api/v1").data = p.data ++ ("/api/v1" : String).data := rfl
  have hid : attachmentIdOf res.name = seg.asString := by
    rw [attachmentIdOf, hlast]
    simp only [List.isEmpty_iff]
    rw [if_neg hne]
  have hrepl : jsReplace "/api/v1" "" (p ++ "/api/v1") = p := by
    rw [jsReplace, replaceFirstOcc, hocc]
    dsimp only
    show (List.take p.data.length (p.data ++ ("/api/v1" : String).data) ++ [] ++
        List.drop (p.data.length + ("/api/v1" : String).data.length)
          (p.data ++ ("/api/v1" : String).data)).asString = p
    rw [List.take_left, ← List.length_append, List.drop_length]
    show (p.data ++ [] ++ []).asString = p
    rw [List.append_nil, List.append_nil]
    rfl
  have hstrip : (((p ++ "/api/v1")).data.take
      ((p ++ "/api/v1").data.length - ("/api/v1" : String).data.length)).asString = p := by
    rw [hdata, List.length_append, Nat.add_sub_cancel, List.take_left]
    rfl
  refine ⟨?_, ?_, rfl⟩
  · rw [downloadUrl, specDownloadUrl, hrepl, hstrip, hid, hlast]
    rfl
  · rw [downloadUrl, hrepl, hid]

theorem claim_download_url_shape_witness :
    downloadUrl "https://demo.example.com/api/v1" (fun s => s)
        ⟨"attachments/sub/77", "photo.png", none⟩
      = specDownloadUrl "https://demo.example.com/api/v1" (fun s => s)
          ⟨"attachments/sub/77", "photo.png", none⟩
    ∧ downloadUrl "https://demo.example.com/api/v1" (fun s => s)
        ⟨"attachments/sub/77", "photo.png", none⟩
      = "https://demo.example.com" ++ "/file/attachments/"
          ++ (['7', '7'] : List Char).asString ++ "/" ++ (fun s => s) "photo.png"
    ∧ attachmentIdOf "attachments/sub/77" = "77" :=
  claim_download_url_shape "https://demo.example.com" (fun s => s)
    ⟨"attachments/sub/77", "photo.png", none⟩ ['7', '7'] "https://demo.example.com/api/v1"
    (by decide) (by decide) (by decide) (by decide)

/-- C10: for syncLimit ≥ 1 and any transport whose responses are all
well-formed 200 pages, `fetchAllMemos` terminates (the fuel `syncLimit + 1`
never runs out) and issues at most syncLimit page requests, even when every
response carries a `nextPageToken`. -/
theorem claim_fetchAllMemos_terminates (gt : String → Int)
    (serv : Nat → TransportOutcome) (apiUrl : String) (sl : Nat)
    (hsl : 1 ≤ sl) (hwf : ∀ i, WellFormedPage (serv i)) :
    ∃ tr res, fetchAllMemos gt serv apiUrl sl = some (tr, res) ∧ tr.length ≤ sl := by
  by_cases hcfg : jsIncludes apiUrl "/api/v1" = false
  · refine ⟨[], Except.error (JsError.error "API URL 格式不正确，请确保包含 /api/v1"), ?_, by simp⟩
    simp [fetchAllMemos, hcfg, rewrapError, Except.mapError]
  · obtain ⟨⟨tr0, res0⟩, hloop⟩ := Option.isSome_iff_exists.mp
      (fetchLoop_isSome (sl + 1) serv sl (min 100 sl) [] none 0 (by omega) (by simp))
    have hlen := fetchLoop_trace_le (sl + 1) serv sl (min 100 sl) [] none 0 tr0 res0
      hloop (by simpa using hsl)
    refine ⟨tr0, (res0.map (sortMemos gt)).mapError (rewrapError apiUrl), ?_,
      by simpa using hlen⟩
    rw [fetchAllMemos, if_neg hcfg]
    simp [hloop]

theorem claim_fetchAllMemos_terminates_witness :
    ∃ tr res, fetchAllMemos (fun _ => 0) (fun _ => .ok ⟨200, "", .page [] none, none⟩)
        "https://h/api/v1" 3 = some (tr, res) ∧ tr.length ≤ 3 :=
  claim_fetchAllMemos_terminates (fun _ => 0) (fun _ => .ok ⟨200, "", .page [] none, none⟩)
    "https://h/api/v1" 3 (by decide) (fun i => ⟨"", [], none, none, rfl⟩)

end MemosSync
